import Mathlib

/-!
Formal model of the SmartDelete Obsidian plugin (main.js).

The JavaScript source is shallowly embedded: the folder walk, the
reference counter, the link locator and the deletion orchestrator become
Lean functions; external collaborators (vault, metadata cache, editor,
modal) are modelled as an explicit environment, and the observable
actions of one request (physical deletions, text-span removal, user
notifications, modal opening) are collected as an event trace.
-/

set_option maxRecDepth 10000

namespace SmartDelete

/-- Position in the editor, mirroring the { line, ch } objects of the source. -/
structure Pos where
  line : Nat
  ch : Nat
deriving DecidableEq

/-- Result of getLinkUnderCursor: the link text and the span it occupies.
The source names the fields start and end; end is reserved in Lean so
the span bounds are called startPos and stopPos here. -/
structure AttachmentRef where
  linkText : String
  startPos : Pos
  stopPos : Pos
deriving DecidableEq

/-- Trash strategy setting: values system, local, permanent of the source. -/
inductive TrashStrategy where
  | system
  | localTrash
  | permanent
deriving DecidableEq

/-- Plugin settings, mirroring DEFAULT_SETTINGS and the settings tab. -/
structure Settings where
  enableCascade : Bool
  stopFolders : String
  enableWarning : Bool
  warningThreshold : Nat
  trashStrategy : TrashStrategy

/-- Child entry of a folder, as read by calculateCascadeFolders: only the
name and path fields of a child are consulted. -/
structure ChildEntry where
  path : String
  name : String
deriving DecidableEq

/-- Folder node as consulted by the walk of calculateCascadeFolders:
path, name, the isRoot predicate and the list of direct children. -/
structure FolderRec where
  path : String
  name : String
  isRoot : Bool
  children : List ChildEntry
deriving DecidableEq

/-- Target file handle. The parent chain (targetFile.parent, then
parent.parent, and so on) is materialised as the list ancestors,
innermost ancestor first; an exhausted list models a null parent. -/
structure TargetFile where
  path : String
  name : String
  ancestors : List FolderRec
deriving DecidableEq

/-- Recognized system-noise filenames of calculateCascadeFolders. -/
def isSystemName (n : String) : Bool :=
  n == ".DS_Store" || n == "Thumbs.db" || n == "Desktop.ini"

/-- Barrier-name list: stopFolders split on commas, entries trimmed,
empty entries discarded, as in calculateCascadeFolders line 154. -/
def stopFolderNames (stopFolders : String) : List String :=
  ((stopFolders.splitOn ",").map String.trim).filter (fun s => s.length > 0)

/-- Loop body of calculateCascadeFolders: walk the ancestor chain while
the current folder exists and is not the root; stop at a barrier name;
filter children against system-noise names and already-ignored paths;
accept the folder when the filtered list is empty, else stop. -/
def cascadeGo (stopNames : List String) (ignored : List String) :
    List FolderRec → List FolderRec
  | [] => []
  | f :: rest =>
    if f.isRoot then []
    else if stopNames.contains f.name then []
    else
      let remaining := f.children.filter
        (fun child => !(isSystemName child.name) && !(ignored.contains child.path))
      if remaining.length == 0 then
        f :: cascadeGo stopNames (f.path :: ignored) rest
      else []

/-- Embedding of calculateCascadeFolders (main.js lines 152-177). -/
def calculateCascadeFolders (settings : Settings) (targetFile : TargetFile) :
    List FolderRec :=
  if !settings.enableCascade then []
  else cascadeGo (stopFolderNames settings.stopFolders) [targetFile.path]
    targetFile.ancestors

/-- Reference summary returned by getReferences. -/
structure RefSummary where
  totalCount : Nat
  fileCount : Nat
  files : List String
deriving DecidableEq

/-- Loop of getReferences over Object.entries(resolvedLinks): for each
source path whose link map contains the target path, add its count and
record the source path. A recorded count of zero still records the
source, because 0 is distinct from undefined in the source test. -/
def refScan (targetPath : String) :
    List (String × List (String × Nat)) → Nat × List String
  | [] => (0, [])
  | (sourcePath, links) :: rest =>
    let acc := refScan targetPath rest
    match links.lookup targetPath with
    | some count => (count + acc.1, sourcePath :: acc.2)
    | none => acc

/-- Embedding of getReferences (main.js lines 179-201). The resolved-link
index is an association list source path to (target path to count). -/
def getReferences (resolvedLinks : List (String × List (String × Nat)))
    (targetPath : String) : RefSummary :=
  let scan := refScan targetPath resolvedLinks
  { totalCount := scan.1, fileCount := scan.2.length, files := scan.2 }

/-- Outcome of the decision logic of processDeleteRequest lines 126-149:
delete the file only, delete silently with full cascade, or open the
confirmation modal. -/
inductive GateDecision where
  | fileOnly
  | silentCascade
  | confirm
deriving DecidableEq

/-- Confirmation-gate decision function, the branch structure of
processDeleteRequest lines 126-149 over the computed folder plan. -/
def decideGate (settings : Settings) (plan : List FolderRec) : GateDecision :=
  if !settings.enableCascade || plan.length == 0 then .fileOnly
  else if !settings.enableWarning then .silentCascade
  else if plan.length < settings.warningThreshold then .silentCascade
  else .confirm

/-- Children condition of the cascade-plan invariant: walking the plan in
computation (innermost-first) order, every child of every planned folder
is a system-noise name or a path already ignored, where the ignored set
starts from the given list and grows by each accepted folder path. -/
def PlanChildrenOK (ignored : List String) : List FolderRec → Prop
  | [] => True
  | f :: rest =>
    (∀ c ∈ f.children, isSystemName c.name = true ∨ c.path ∈ ignored) ∧
    PlanChildrenOK (f.path :: ignored) rest

theorem cascadeGo_childrenOK (stopNames : List String) :
    ∀ (anc : List FolderRec) (ignored : List String),
    PlanChildrenOK ignored (cascadeGo stopNames ignored anc) := by
  intro anc
  induction anc with
  | nil => intro ignored; trivial
  | cons f rest ih =>
    intro ignored
    simp only [cascadeGo]
    split
    · trivial
    · split
      · trivial
      · split
        · refine ⟨?_, ih (f.path :: ignored)⟩
          rename_i hlen
          have hnil : f.children.filter
              (fun child => !(isSystemName child.name) &&
                !(ignored.contains child.path)) = [] := by
            exact List.length_eq_zero.mp (by simpa using hlen)
          intro c hc
          have hc' := List.filter_eq_nil_iff.mp hnil c hc
          rcases hsys : isSystemName c.name with _ | _
          · have hcontain : ignored.contains c.path = true := by
              rcases hign : ignored.contains c.path with _ | _
              · rw [hsys, hign] at hc'
                simp at hc'
              · rfl
            exact Or.inr
              (List.mem_of_elem_eq_true (by simpa [List.contains] using hcontain))
          · exact Or.inl rfl
        · trivial

theorem cascadeGo_mem_guards (stopNames : List String) :
    ∀ (anc : List FolderRec) (ignored : List String),
    ∀ f ∈ cascadeGo stopNames ignored anc,
    f.isRoot = false ∧ stopNames.contains f.name = false := by
  intro anc
  induction anc with
  | nil => intro ignored f hf; simp [cascadeGo] at hf
  | cons g rest ih =>
    intro ignored f hf
    simp only [cascadeGo] at hf
    split at hf
    · simp at hf
    · split at hf
      · simp at hf
      · split at hf
        · rcases List.mem_cons.mp hf with h | h
          · subst h
            rename_i hroot hstop _
            exact ⟨Bool.not_eq_true _ ▸ Bool.of_not_eq_true hroot,
              Bool.of_not_eq_true hstop⟩
          · exact ih _ f h
        · simp at hf

/-- C2: every folder in the plan computed by calculateCascadeFolders has,
at computation time, no children other than already-planned folder paths
or the target path and the recognized system-noise filenames; no planned
folder is the root or carries a configured (trimmed, non-empty) barrier
name; a first ancestor whose name is a barrier name yields an empty plan
(the barrier test precedes the emptiness test), and a target whose
immediate parent is the root yields an empty plan. -/
theorem c2_cascade_plan_invariants (settings : Settings) (targetFile : TargetFile) :
    PlanChildrenOK [targetFile.path] (calculateCascadeFolders settings targetFile) ∧
    (∀ f ∈ calculateCascadeFolders settings targetFile, f.isRoot = false) ∧
    (∀ f ∈ calculateCascadeFolders settings targetFile,
      f.name ∉ stopFolderNames settings.stopFolders) ∧
    (∀ f rest, targetFile.ancestors = f :: rest →
      f.name ∈ stopFolderNames settings.stopFolders →
      calculateCascadeFolders settings targetFile = []) ∧
    (∀ f rest, targetFile.ancestors = f :: rest → f.isRoot = true →
      calculateCascadeFolders settings targetFile = []) := by
  unfold calculateCascadeFolders
  rcases hc : settings.enableCascade with _ | _
  · simp [PlanChildrenOK]
  · simp only [Bool.not_true, Bool.false_eq_true, if_false]
    refine ⟨cascadeGo_childrenOK _ _ _, ?_, ?_, ?_, ?_⟩
    · intro f hf
      exact (cascadeGo_mem_guards _ _ _ f hf).1
    · intro f hf hmem
      have h2 : (stopFolderNames settings.stopFolders).contains f.name = true := by
        simpa [List.contains] using List.elem_eq_true_of_mem hmem
      rw [(cascadeGo_mem_guards _ _ _ f hf).2] at h2
      exact Bool.false_ne_true h2
    · intro f rest hanc hmem
      rw [hanc]
      simp only [cascadeGo]
      split
      · rfl
      · rw [if_pos (List.elem_eq_true_of_mem hmem)]
    · intro f rest hanc hroot
      rw [hanc]
      simp only [cascadeGo]
      rw [if_pos hroot]

/-- C3: decision function of the confirmation gate — cascading disabled or
an empty plan gives file-only; otherwise disabled warnings, or a plan
strictly below the warning threshold, proceed silently with full cascade;
a plan at or above the threshold (in particular exactly at it) opens the
confirmation modal; and the decision depends only on the plan length and
the settings. -/
theorem c3_confirmation_gate (settings : Settings) (plan : List FolderRec) :
    (settings.enableCascade = false ∨ plan = [] →
      decideGate settings plan = .fileOnly) ∧
    (settings.enableCascade = true → plan ≠ [] →
      settings.enableWarning = false →
      decideGate settings plan = .silentCascade) ∧
    (settings.enableCascade = true → plan ≠ [] →
      settings.enableWarning = true →
      plan.length < settings.warningThreshold →
      decideGate settings plan = .silentCascade) ∧
    (settings.enableCascade = true → plan ≠ [] →
      settings.enableWarning = true →
      settings.warningThreshold ≤ plan.length →
      decideGate settings plan = .confirm) ∧
    (settings.enableCascade = true → plan ≠ [] →
      settings.enableWarning = true →
      plan.length = settings.warningThreshold →
      decideGate settings plan = .confirm) ∧
    (∀ plan2 : List FolderRec, plan.length = plan2.length →
      decideGate settings plan = decideGate settings plan2) := by
  refine ⟨?_, ?_, ?_, ?_, ?_, ?_⟩
  · rintro (h | h) <;> simp [decideGate, h]
  · intro hc hp hw
    have hlen : plan.length ≠ 0 := by simpa using List.length_pos.mpr hp |>.ne'
    simp [decideGate, hc, hw, hlen]
  · intro hc hp hw hlt
    have hlen : plan.length ≠ 0 := by simpa using List.length_pos.mpr hp |>.ne'
    simp [decideGate, hc, hw, hlen, hlt]
  · intro hc hp hw hge
    have hlen : plan.length ≠ 0 := by simpa using List.length_pos.mpr hp |>.ne'
    simp [decideGate, hc, hw, hlen, Nat.not_lt.mpr hge]
  · intro hc hp hw heq
    have hlen : plan.length ≠ 0 := by simpa using List.length_pos.mpr hp |>.ne'
    have hth : settings.warningThreshold ≠ 0 := fun h0 => hlen (heq.trans h0)
    simp [decideGate, hc, hw, hlen, heq, hth]
  · intro plan2 hlen
    simp only [decideGate, hlen]

/-- Entries of the resolved-link index whose link map records the target
path, written after the spec description of the reference counter. -/
def referencingEntries (resolvedLinks : List (String × List (String × Nat)))
    (targetPath : String) : List (String × List (String × Nat)) :=
  resolvedLinks.filter (fun e => (e.2.lookup targetPath).isSome)

/-- Source-document paths that reference the target, per the spec. -/
def specReferencedDocs (resolvedLinks : List (String × List (String × Nat)))
    (targetPath : String) : List String :=
  (referencingEntries resolvedLinks targetPath).map Prod.fst

/-- Combined occurrence count over all referencing documents, per the spec. -/
def specOccurrenceTotal (resolvedLinks : List (String × List (String × Nat)))
    (targetPath : String) : Nat :=
  ((referencingEntries resolvedLinks targetPath).map
    (fun e => (e.2.lookup targetPath).getD 0)).sum

theorem refScan_spec (targetPath : String) :
    ∀ resolvedLinks : List (String × List (String × Nat)),
    refScan targetPath resolvedLinks =
      (specOccurrenceTotal resolvedLinks targetPath,
       specReferencedDocs resolvedLinks targetPath) := by
  intro l
  induction l with
  | nil => rfl
  | cons e rest ih =>
    obtain ⟨sourcePath, links⟩ := e
    rcases hl : links.lookup targetPath with _ | count
    · simp [refScan, hl, ih, specOccurrenceTotal, specReferencedDocs,
        referencingEntries]
    · simp [refScan, hl, ih, specOccurrenceTotal, specReferencedDocs,
        referencingEntries]

/-- C6: for a target recorded in the resolved-link index by N distinct
source documents totalling M occurrences, getReferences returns
totalCount = M, files = the list of those N source paths (distinct when
the index keys are), and fileCount = N. -/
theorem c6_reference_counter (resolvedLinks : List (String × List (String × Nat)))
    (targetPath : String)
    (hkeys : (resolvedLinks.map Prod.fst).Nodup) :
    (getReferences resolvedLinks targetPath).totalCount =
      specOccurrenceTotal resolvedLinks targetPath ∧
    (getReferences resolvedLinks targetPath).files =
      specReferencedDocs resolvedLinks targetPath ∧
    (getReferences resolvedLinks targetPath).fileCount =
      (specReferencedDocs resolvedLinks targetPath).length ∧
    (getReferences resolvedLinks targetPath).files.Nodup := by
  have hscan := refScan_spec targetPath resolvedLinks
  refine ⟨?_, ?_, ?_, ?_⟩
  · simp [getReferences, hscan]
  · simp [getReferences, hscan]
  · simp [getReferences, hscan]
  · simp only [getReferences, hscan]
    refine List.Nodup.sublist ?_ hkeys
    exact List.Sublist.map Prod.fst (List.filter_sublist resolvedLinks)

/-- User-visible notifications issued by the plugin, one constructor per
Notice call of the source, carrying the data interpolated there. -/
inductive NoticeMsg where
  | notFound (linkText : String)
  | multiRefLocal (totalCount : Nat)
  | multiRef (totalCount : Nat)
  | fileBusy
  | deleteFailed
  | cascadeCleared (count : Nat) (folderNames : List String)
  | deletedAttachment (name : String)
deriving DecidableEq

/-- Observable actions of one deletion request: a physical deletion or
trash call issued for a path, removal of a text span from the editor, a
notification, or the opening of the confirmation modal (with the folder
paths in the reversed display order of DeleteConfirmModal). -/
inductive Ev where
  | physDelete (path : String)
  | removeSpan (startPos stopPos : Pos)
  | notice (msg : NoticeMsg)
  | modalOpened (folderPaths : List String)
deriving DecidableEq

/-- Orchestrator state: the isProcessing lock plus the trace of events
emitted so far. -/
structure OrchState where
  isProcessing : Bool
  events : List Ev
deriving DecidableEq

/-- Button pressed in the confirmation modal. -/
inductive ModalChoice where
  | cancel
  | fileOnly
  | all
deriving DecidableEq

/-- External collaborators of one request: the metadata-cache resolution
of the clicked link, the resolved-link index, the outcome of the
deletion primitive per path (ok, or a thrown error with its message
string), re-resolution of folder paths, the modal answer, and the editor
content read by getValue. -/
structure World where
  resolveTarget : Option TargetFile
  resolvedLinks : List (String × List (String × Nat))
  deleteResult : String → Except String Unit
  resolveAbstract : String → Bool
  modalChoice : ModalChoice
  editorContent : String

/-- Busy classifier of the catch block (main.js line 115): the message
contains EBUSY, or its lowercased form contains busy. Char.toLower is
ASCII-only where the JS toLowerCase is Unicode-wide; the difference does
not affect the busy test. -/
def containsSubstring (needle hay : List Char) : Bool :=
  (List.range (hay.length + 1)).any (fun i => needle.isPrefixOf (hay.drop i))

def isBusyMessage (msg : String) : Bool :=
  containsSubstring "EBUSY".data msg.data ||
  containsSubstring "busy".data (msg.data.map Char.toLower)

/-- Cascade loop of executeDelete (main.js lines 104-107): for each
planned folder, re-resolve by path, and if present issue the deletion;
a throw aborts the loop with the error message, handing control to the
shared catch block. -/
def cascadeLoop (w : World) : List FolderRec → List Ev × Option String
  | [] => ([], none)
  | folder :: rest =>
    if w.resolveAbstract folder.path then
      match w.deleteResult folder.path with
      | .ok _ =>
        let next := cascadeLoop w rest
        (.physDelete folder.path :: next.1, next.2)
      | .error msg => ([.physDelete folder.path], some msg)
    else cascadeLoop w rest

/-- Embedding of executeDelete (main.js lines 87-124): re-check and take
the lock, attempt the physical deletion of the target (a throw jumps to
the catch block, which classifies the message and notifies), then remove
the link span (behind the always-true getValue length guard of line 97),
then run the cascade when requested and non-empty, notify, and release
the lock in the finally block. -/
def executeDelete (w : World) (targetFile : TargetFile) (linkInfo : AttachmentRef)
    (foldersToDelete : List FolderRec) (deleteFolders : Bool)
    (st : OrchState) : OrchState :=
  if st.isProcessing then st
  else
    match w.deleteResult targetFile.path with
    | .error err =>
      { isProcessing := false,
        events := st.events ++ [.physDelete targetFile.path,
          .notice (if isBusyMessage err then .fileBusy else .deleteFailed)] }
    | .ok _ =>
      let textEvents : List Ev :=
        if 0 ≤ w.editorContent.length then
          [.removeSpan linkInfo.startPos linkInfo.stopPos]
        else []
      let tailEvents : List Ev :=
        if deleteFolders && foldersToDelete.length > 0 then
          let loop := cascadeLoop w foldersToDelete
          match loop.2 with
          | none => loop.1 ++
              [.notice (.cascadeCleared foldersToDelete.length
                (foldersToDelete.map FolderRec.name))]
          | some err => loop.1 ++
              [.notice (if isBusyMessage err then .fileBusy else .deleteFailed)]
        else [.notice (.deletedAttachment targetFile.name)]
      { isProcessing := false,
        events := st.events ++ .physDelete targetFile.path :: (textEvents ++ tailEvents) }

/-- Embedding of processDeleteRequest (main.js lines 60-150): the entry
lock guard, link resolution with the strip-anyway branch, the reference
counter with the multi-reference early exit, the cascade plan, and the
decision chain ending in executeDelete or the confirmation modal. The
modal callback is folded in sequentially through the modal answer of the
environment. -/
def processDeleteRequest (w : World) (settings : Settings)
    (linkInfo : AttachmentRef) (currentNotePath : String)
    (st : OrchState) : OrchState :=
  if st.isProcessing then st
  else
    match w.resolveTarget with
    | none =>
      { st with events := st.events ++ [.notice (.notFound linkInfo.linkText),
          .removeSpan linkInfo.startPos linkInfo.stopPos] }
    | some targetFile =>
      let refData := getReferences w.resolvedLinks targetFile.path
      if refData.totalCount > 1 then
        { st with events := st.events ++
            [.removeSpan linkInfo.startPos linkInfo.stopPos,
             .notice (if refData.fileCount == 1 &&
                  refData.files.contains currentNotePath then
                .multiRefLocal refData.totalCount
              else .multiRef refData.totalCount)] }
      else
        let foldersToDelete := calculateCascadeFolders settings targetFile
        if !settings.enableCascade || foldersToDelete.length == 0 then
          executeDelete w targetFile linkInfo foldersToDelete false st
        else if !settings.enableWarning then
          executeDelete w targetFile linkInfo foldersToDelete true st
        else if foldersToDelete.length < settings.warningThreshold then
          executeDelete w targetFile linkInfo foldersToDelete true st
        else
          let st' := { st with events := st.events ++
            [.modalOpened ((foldersToDelete.map FolderRec.path).reverse)] }
          match w.modalChoice with
          | .all => executeDelete w targetFile linkInfo foldersToDelete true st'
          | .fileOnly => executeDelete w targetFile linkInfo foldersToDelete false st'
          | .cancel => st'

theorem executeDelete_lock_after (w : World) (targetFile : TargetFile)
    (linkInfo : AttachmentRef) (foldersToDelete : List FolderRec)
    (deleteFolders : Bool) (st : OrchState) (h : st.isProcessing = false) :
    (executeDelete w targetFile linkInfo foldersToDelete deleteFolders st).isProcessing
      = false := by
  unfold executeDelete
  rw [h]
  simp only [Bool.false_eq_true, if_false]
  cases w.deleteResult targetFile.path <;> simp

/-- C1: when the physical deletion of the target throws, executeDelete
emits exactly the attempted deletion and a notification (the busy
message precisely when the error message carries a busy or EBUSY
indication, else the generic failure message): the link span stays in
the document and no cascade deletion is issued; and on success the trace
places the span removal immediately after the successful physical
deletion, so text is only edited after the deletion succeeded. -/
theorem c1_rollback_by_ordering (w : World) (targetFile : TargetFile)
    (linkInfo : AttachmentRef) (foldersToDelete : List FolderRec)
    (deleteFolders : Bool) (st : OrchState)
    (hlock : st.isProcessing = false) :
    (∀ err, w.deleteResult targetFile.path = .error err →
      executeDelete w targetFile linkInfo foldersToDelete deleteFolders st =
        { isProcessing := false,
          events := st.events ++ [.physDelete targetFile.path,
            .notice (if isBusyMessage err then .fileBusy else .deleteFailed)] } ∧
      (∀ a b, Ev.removeSpan a b ∈
          (executeDelete w targetFile linkInfo foldersToDelete deleteFolders st).events →
        Ev.removeSpan a b ∈ st.events) ∧
      (∀ p, Ev.physDelete p ∈
          (executeDelete w targetFile linkInfo foldersToDelete deleteFolders st).events →
        Ev.physDelete p ∈ st.events ∨ p = targetFile.path)) ∧
    (w.deleteResult targetFile.path = .ok () →
      ∃ tail,
        (executeDelete w targetFile linkInfo foldersToDelete deleteFolders st).events =
          st.events ++ Ev.physDelete targetFile.path ::
            Ev.removeSpan linkInfo.startPos linkInfo.stopPos :: tail) := by
  constructor
  · intro err herr
    have heq : executeDelete w targetFile linkInfo foldersToDelete deleteFolders st =
        { isProcessing := false,
          events := st.events ++ [.physDelete targetFile.path,
            .notice (if isBusyMessage err then .fileBusy else .deleteFailed)] } := by
      unfold executeDelete
      rw [hlock, herr]
      simp
    refine ⟨heq, ?_, ?_⟩
    · intro a b hab
      rw [heq] at hab
      simp only [List.mem_append, List.mem_cons, List.mem_singleton] at hab
      rcases hab with h | h | h
      · exact h
      · exact absurd h (by simp)
      · revert h
        split <;> simp
    · intro p hp
      rw [heq] at hp
      simp only [List.mem_append, List.mem_cons, List.mem_singleton] at hp
      rcases hp with h | h | h
      · exact Or.inl h
      · exact Or.inr (by simpa using h)
      · revert h
        split <;> simp
  · intro hok
    refine ⟨(if deleteFolders && foldersToDelete.length > 0 then
        match (cascadeLoop w foldersToDelete).2 with
        | none => (cascadeLoop w foldersToDelete).1 ++
            [.notice (.cascadeCleared foldersToDelete.length
              (foldersToDelete.map FolderRec.name))]
        | some err => (cascadeLoop w foldersToDelete).1 ++
            [.notice (if isBusyMessage err then .fileBusy else .deleteFailed)]
      else [.notice (.deletedAttachment targetFile.name)]), ?_⟩
    unfold executeDelete
    rw [hlock, hok]
    simp

/-- C4: a request arriving while the processing lock is held is a silent
no-op at both entry guards (no physical deletion, no text edit, no
notification), so at most one deletion execution runs at a time, and an
execution entered with the lock free ends with the lock reset to false;
processDeleteRequest never changes the stored lock value it was called
with. -/
theorem c4_single_flight_lock (w : World) (settings : Settings)
    (linkInfo : AttachmentRef) (currentNotePath : String)
    (targetFile : TargetFile) (foldersToDelete : List FolderRec)
    (deleteFolders : Bool) (st : OrchState) :
    (st.isProcessing = true →
      processDeleteRequest w settings linkInfo currentNotePath st = st) ∧
    (st.isProcessing = true →
      executeDelete w targetFile linkInfo foldersToDelete deleteFolders st = st) ∧
    (st.isProcessing = false →
      (executeDelete w targetFile linkInfo foldersToDelete deleteFolders st).isProcessing
        = false) ∧
    (processDeleteRequest w settings linkInfo currentNotePath st).isProcessing
      = st.isProcessing := by
  refine ⟨?_, ?_, ?_, ?_⟩
  · intro h; simp [processDeleteRequest, h]
  · intro h; simp [executeDelete, h]
  · exact executeDelete_lock_after w targetFile linkInfo foldersToDelete
      deleteFolders st
  · rcases hp : st.isProcessing with _ | _
    · unfold processDeleteRequest
      rw [hp]
      simp only [Bool.false_eq_true, if_false]
      cases w.resolveTarget with
      | none => simp [hp]
      | some tf =>
        simp only []
        split
        · simp
        · split
          · exact executeDelete_lock_after _ _ _ _ _ _ hp
          · split
            · exact executeDelete_lock_after _ _ _ _ _ _ hp
            · split
              · exact executeDelete_lock_after _ _ _ _ _ _ hp
              · cases w.modalChoice with
                | all => exact executeDelete_lock_after _ _ _ _ _ _ rfl
                | fileOnly => exact executeDelete_lock_after _ _ _ _ _ _ rfl
                | cancel => rfl
    · simp [processDeleteRequest, hp]

theorem refScan_len_le_total (targetPath : String) :
    ∀ l : List (String × List (String × Nat)),
    (∀ src links c, (src, links) ∈ l → links.lookup targetPath = some c →
      1 ≤ c) →
    (refScan targetPath l).2.length ≤ (refScan targetPath l).1 := by
  intro l
  induction l with
  | nil => intro _; simp [refScan]
  | cons e rest ih =>
    intro hpos
    obtain ⟨src, links⟩ := e
    have ihr := ih (fun s ls c hm hl => hpos s ls c (List.mem_cons_of_mem _ hm) hl)
    rcases hl : links.lookup targetPath with _ | c
    · simpa [refScan, hl] using ihr
    · have hc := hpos src links c (List.mem_cons_self _ _) hl
      simp only [refScan, hl]
      simp only [List.length_cons]
      omega

/-- C5: when the reference summary of the target counts more than one
occurrence overall, processDeleteRequest removes only the clicked link
span and notifies with the reference count — the local-reference variant
exactly when the summary has a single referencing document and it is the
current note — and issues no physical deletion or cascade; moreover, when
every recorded count is at least one (a document that references the
target has at least one occurrence), more than one referencing document
forces more than one occurrence overall, so the same outcome covers the
multiple-documents trigger. -/
theorem c5_multiply_referenced (w : World) (settings : Settings)
    (linkInfo : AttachmentRef) (currentNotePath : String)
    (st : OrchState) (targetFile : TargetFile)
    (hlock : st.isProcessing = false)
    (hres : w.resolveTarget = some targetFile) :
    ((getReferences w.resolvedLinks targetFile.path).totalCount > 1 →
      processDeleteRequest w settings linkInfo currentNotePath st =
        { st with events := st.events ++
            [.removeSpan linkInfo.startPos linkInfo.stopPos,
             .notice (if (getReferences w.resolvedLinks targetFile.path).fileCount == 1 &&
                  (getReferences w.resolvedLinks targetFile.path).files.contains
                    currentNotePath then
                .multiRefLocal (getReferences w.resolvedLinks targetFile.path).totalCount
              else
                .multiRef (getReferences w.resolvedLinks targetFile.path).totalCount)] } ∧
      (∀ p, Ev.physDelete p ∈
          (processDeleteRequest w settings linkInfo currentNotePath st).events →
        Ev.physDelete p ∈ st.events)) ∧
    ((∀ src links c, (src, links) ∈ w.resolvedLinks →
        links.lookup targetFile.path = some c → 1 ≤ c) →
      1 < (getReferences w.resolvedLinks targetFile.path).fileCount →
      1 < (getReferences w.resolvedLinks targetFile.path).totalCount) := by
  refine ⟨?_, ?_⟩
  case refine_2 =>
    intro hpos hfc
    have := refScan_len_le_total targetFile.path w.resolvedLinks hpos
    simp only [getReferences] at hfc ⊢
    omega
  intro hmulti
  have heq : processDeleteRequest w settings linkInfo currentNotePath st =
      { st with events := st.events ++
          [.removeSpan linkInfo.startPos linkInfo.stopPos,
           .notice (if (getReferences w.resolvedLinks targetFile.path).fileCount == 1 &&
                (getReferences w.resolvedLinks targetFile.path).files.contains
                  currentNotePath then
              .multiRefLocal (getReferences w.resolvedLinks targetFile.path).totalCount
            else
              .multiRef (getReferences w.resolvedLinks targetFile.path).totalCount)] } := by
    unfold processDeleteRequest
    rw [hlock, hres]
    simp only [Bool.false_eq_true, if_false]
    rw [if_pos hmulti]
  refine ⟨heq, ?_⟩
  intro p hp
  rw [heq] at hp
  simp only [List.mem_append, List.mem_cons, List.mem_singleton] at hp
  rcases hp with h | h | h
  · exact h
  · exact absurd h (by simp)
  · revert h
    split <;> simp

/-- C8: when the located link text resolves to no file, the request
notifies the user, strips the link span anyway, and attempts no physical
deletion or cascade. -/
theorem c8_link_not_found (w : World) (settings : Settings)
    (linkInfo : AttachmentRef) (currentNotePath : String) (st : OrchState)
    (hlock : st.isProcessing = false)
    (hres : w.resolveTarget = none) :
    processDeleteRequest w settings linkInfo currentNotePath st =
      { st with events := st.events ++
          [.notice (.notFound linkInfo.linkText),
           .removeSpan linkInfo.startPos linkInfo.stopPos] } ∧
    (∀ p, Ev.physDelete p ∈
        (processDeleteRequest w settings linkInfo currentNotePath st).events →
      Ev.physDelete p ∈ st.events) := by
  have heq : processDeleteRequest w settings linkInfo currentNotePath st =
      { st with events := st.events ++
          [.notice (.notFound linkInfo.linkText),
           .removeSpan linkInfo.startPos linkInfo.stopPos] } := by
    unfold processDeleteRequest
    rw [hlock, hres]
    simp
  refine ⟨heq, ?_⟩
  intro p hp
  rw [heq] at hp
  simp only [List.mem_append, List.mem_cons, List.mem_singleton] at hp
  rcases hp with h | h | h
  · exact h
  · exact absurd h (by simp)
  · exact absurd h (by simp)

theorem cascadeLoop_congr (w1 w2 : World)
    (hra : w1.resolveAbstract = w2.resolveAbstract)
    (hdr : w1.deleteResult = w2.deleteResult) :
    ∀ l, cascadeLoop w1 l = cascadeLoop w2 l := by
  intro l
  induction l with
  | nil => rfl
  | cons f rest ih =>
    simp only [cascadeLoop]
    rw [hra, hdr, ih]

theorem executeDelete_congr (w1 w2 : World) (targetFile : TargetFile)
    (linkInfo : AttachmentRef) (foldersToDelete : List FolderRec)
    (deleteFolders : Bool) (st : OrchState)
    (hdr : w1.deleteResult = w2.deleteResult)
    (hra : w1.resolveAbstract = w2.resolveAbstract)
    (hec : w1.editorContent = w2.editorContent) :
    executeDelete w1 targetFile linkInfo foldersToDelete deleteFolders st =
    executeDelete w2 targetFile linkInfo foldersToDelete deleteFolders st := by
  unfold executeDelete
  rw [hdr, hec, cascadeLoop_congr w1 w2 hra hdr foldersToDelete]

/-- C10: the multi-reference early exit depends only on totalCount being
strictly greater than one — two resolved-link indices whose totals are
both at most one (in particular a zero-reference index with any number of
recorded documents, and a singly-referenced one) drive the request to the
same outcome; fileCount plays no role in the guard. -/
theorem c10_totalcount_guard (w : World)
    (resolvedLinks1 resolvedLinks2 : List (String × List (String × Nat)))
    (settings : Settings) (linkInfo : AttachmentRef)
    (currentNotePath : String) (st : OrchState) (targetFile : TargetFile)
    (hres : w.resolveTarget = some targetFile)
    (h1 : (getReferences resolvedLinks1 targetFile.path).totalCount ≤ 1)
    (h2 : (getReferences resolvedLinks2 targetFile.path).totalCount ≤ 1) :
    processDeleteRequest { w with resolvedLinks := resolvedLinks1 }
      settings linkInfo currentNotePath st =
    processDeleteRequest { w with resolvedLinks := resolvedLinks2 }
      settings linkInfo currentNotePath st := by
  unfold processDeleteRequest
  rcases hp : st.isProcessing with _ | _
  · simp only [Bool.false_eq_true, if_false]
    have hres1 : ({ w with resolvedLinks := resolvedLinks1 } : World).resolveTarget
        = some targetFile := hres
    rw [hres1]
    have hn1 : ¬ (getReferences resolvedLinks1 targetFile.path).totalCount > 1 := by
      omega
    have hn2 : ¬ (getReferences resolvedLinks2 targetFile.path).totalCount > 1 := by
      omega
    simp only []
    rw [if_neg hn1, if_neg hn2]
    split
    · exact executeDelete_congr _ _ _ _ _ _ _ rfl rfl rfl
    · split
      · exact executeDelete_congr _ _ _ _ _ _ _ rfl rfl rfl
      · split
        · exact executeDelete_congr _ _ _ _ _ _ _ rfl rfl rfl
        · cases w.modalChoice with
          | all => exact executeDelete_congr _ _ _ _ _ _ _ rfl rfl rfl
          | fileOnly => exact executeDelete_congr _ _ _ _ _ _ _ rfl rfl rfl
          | cancel => rfl
  · simp

/-- Concrete fixtures used to instantiate the theorems above. -/
def sampleSettings : Settings :=
  { enableCascade := true, stopFolders := "assets", enableWarning := true,
    warningThreshold := 3, trashStrategy := .system }

def folderC : FolderRec :=
  { path := "A/B/C", name := "C", isRoot := false,
    children := [{ path := "A/B/C/x.png", name := "x.png" },
                 { path := "A/B/C/.DS_Store", name := ".DS_Store" }] }

def folderB : FolderRec :=
  { path := "A/B", name := "B", isRoot := false,
    children := [{ path := "A/B/C", name := "C" }] }

def folderA : FolderRec :=
  { path := "A", name := "A", isRoot := false,
    children := [{ path := "A/B", name := "B" },
                 { path := "A/keep.md", name := "keep.md" }] }

def rootFolder : FolderRec :=
  { path := "/", name := "", isRoot := true,
    children := [{ path := "A", name := "A" }] }

def sampleTarget : TargetFile :=
  { path := "A/B/C/x.png", name := "x.png",
    ancestors := [folderC, folderB, folderA, rootFolder] }

def sampleLink : AttachmentRef :=
  { linkText := "x.png", startPos := { line := 0, ch := 6 },
    stopPos := { line := 0, ch := 15 } }

def sampleWorld : World :=
  { resolveTarget := some sampleTarget,
    resolvedLinks := [("note.md", [("A/B/C/x.png", 1)])],
    deleteResult := fun _ => .ok (),
    resolveAbstract := fun _ => true,
    modalChoice := .cancel,
    editorContent := "see [[x.png]] here" }

def busyWorld : World :=
  { sampleWorld with deleteResult := fun _ => .error "EBUSY: resource busy or locked" }

def multiWorld : World :=
  { sampleWorld with resolvedLinks := [("note.md", [("A/B/C/x.png", 2)])] }

def noTargetWorld : World :=
  { sampleWorld with resolveTarget := none }

def sampleIndex : List (String × List (String × Nat)) :=
  [("note.md", [("A/B/C/x.png", 2)]),
   ("other.md", [("A/B/C/x.png", 1), ("y.png", 3)])]

def zeroRefIndex : List (String × List (String × Nat)) :=
  [("note.md", [("A/B/C/x.png", 0)]), ("other.md", [("A/B/C/x.png", 0)])]

def singleRefIndex : List (String × List (String × Nat)) :=
  [("note.md", [("A/B/C/x.png", 1)])]

def idleState : OrchState := { isProcessing := false, events := [] }

def lockedState : OrchState := { isProcessing := true, events := [] }

/-- Witness for C1 at a busy-error world: the trace is exactly the failed
attempt and the busy notification. -/
theorem c1_rollback_witness :
    executeDelete busyWorld sampleTarget sampleLink [folderC, folderB] true
      idleState =
      { isProcessing := false,
        events := [Ev.physDelete "A/B/C/x.png", Ev.notice NoticeMsg.fileBusy] } := by
  have h := ((c1_rollback_by_ordering busyWorld sampleTarget sampleLink
      [folderC, folderB] true idleState rfl).1 "EBUSY: resource busy or locked"
        rfl).1
  rw [h]
  decide

/-- Witness for C2 at a two-level plan. -/
theorem c2_cascade_plan_witness :
    PlanChildrenOK ["A/B/C/x.png"]
      (calculateCascadeFolders sampleSettings sampleTarget) ∧
    ∀ f ∈ calculateCascadeFolders sampleSettings sampleTarget, f.isRoot = false :=
  ⟨(c2_cascade_plan_invariants sampleSettings sampleTarget).1,
   (c2_cascade_plan_invariants sampleSettings sampleTarget).2.1⟩

/-- Witness for C3: a plan exactly at the threshold confirms, one below it
proceeds silently. -/
theorem c3_confirmation_gate_witness :
    decideGate sampleSettings [folderC, folderB, folderA] = GateDecision.confirm ∧
    decideGate sampleSettings [folderC, folderB] = GateDecision.silentCascade := by
  refine ⟨?_, ?_⟩
  · exact (c3_confirmation_gate sampleSettings
      [folderC, folderB, folderA]).2.2.2.2.1 rfl (by decide) rfl (by decide)
  · exact (c3_confirmation_gate sampleSettings
      [folderC, folderB]).2.2.1 rfl (by decide) rfl (by decide)

/-- Witness for C4: a locked state swallows the request, a free one ends
unlocked. -/
theorem c4_single_flight_witness :
    processDeleteRequest sampleWorld sampleSettings sampleLink "note.md"
      lockedState = lockedState ∧
    (executeDelete sampleWorld sampleTarget sampleLink [folderC, folderB] true
      idleState).isProcessing = false := by
  refine ⟨?_, ?_⟩
  · exact (c4_single_flight_lock sampleWorld sampleSettings sampleLink "note.md"
      sampleTarget [folderC, folderB] true lockedState).1 rfl
  · exact (c4_single_flight_lock sampleWorld sampleSettings sampleLink "note.md"
      sampleTarget [folderC, folderB] true idleState).2.2.1 rfl

/-- Witness for C5 at a doubly-referenced target whose only referencing
document is the current note. -/
theorem c5_multiply_referenced_witness :
    processDeleteRequest multiWorld sampleSettings sampleLink "note.md"
      idleState =
      { isProcessing := false,
        events := [Ev.removeSpan { line := 0, ch := 6 } { line := 0, ch := 15 },
          Ev.notice (NoticeMsg.multiRefLocal 2)] } := by
  have h := ((c5_multiply_referenced multiWorld sampleSettings sampleLink
      "note.md" idleState sampleTarget rfl rfl).1 (by decide)).1
  rw [h]
  decide

/-- Witness for C6 at a two-document index. -/
theorem c6_reference_counter_witness :
    (getReferences sampleIndex "A/B/C/x.png").totalCount =
      specOccurrenceTotal sampleIndex "A/B/C/x.png" ∧
    (getReferences sampleIndex "A/B/C/x.png").files.Nodup :=
  ⟨(c6_reference_counter sampleIndex "A/B/C/x.png" (by decide)).1,
   (c6_reference_counter sampleIndex "A/B/C/x.png" (by decide)).2.2.2⟩

/-- Witness for C8 at an unresolvable link. -/
theorem c8_link_not_found_witness :
    processDeleteRequest noTargetWorld sampleSettings sampleLink "note.md"
      idleState =
      { isProcessing := false,
        events := [Ev.notice (NoticeMsg.notFound "x.png"),
          Ev.removeSpan { line := 0, ch := 6 } { line := 0, ch := 15 }] } := by
  have h := (c8_link_not_found noTargetWorld sampleSettings sampleLink "note.md"
      idleState rfl rfl).1
  rw [h]
  decide

/-- Witness for C10: a zero-total index over two documents and a
singly-referenced index drive the request identically. -/
theorem c10_totalcount_guard_witness :
    processDeleteRequest { sampleWorld with resolvedLinks := zeroRefIndex }
      sampleSettings sampleLink "note.md" idleState =
    processDeleteRequest { sampleWorld with resolvedLinks := singleRefIndex }
      sampleSettings sampleLink "note.md" idleState :=
  c10_totalcount_guard sampleWorld zeroRefIndex singleRefIndex sampleSettings
    sampleLink "note.md" idleState sampleTarget rfl (by decide) (by decide)

/-- Lines are modelled as character lists; indices count characters where
the JS source counts UTF-16 code units (they agree off the astral
plane). The two literal regular expressions of getLinkUnderCursor are
embedded by spelling out their backtracking search: lazy star means the
least viable gap, the greedy optional group is tried before its empty
alternative, and the exec loop yields leftmost matches resuming at the
end of the previous one. -/
def noNewline (s : List Char) (i n : Nat) : Bool :=
  ((s.drop i).take n).all (fun c => !(c == '\n'))

/-- Literal pattern test at an index. -/
def litAt (s : List Char) (i : Nat) (pat : List Char) : Bool :=
  pat.isPrefixOf (s.drop i)

/-- Least index below the bound satisfying the test. -/
def findFirst (p : Nat → Bool) (bound : Nat) : Option Nat :=
  (List.range bound).find? p

/-- Tail of the wiki pattern after the lazy target characters: the greedy
optional alias group, requiring a pipe and then the laziest gap to a
double closing bracket, is tried before the bare double bracket; the
number of characters consumed is returned. -/
def matchTailWiki (s : List Char) (q : Nat) : Option Nat :=
  if litAt s q ['|'] then
    match findFirst (fun g2 => noNewline s (q + 1) g2 &&
        litAt s (q + 1 + g2) [']', ']']) (s.length + 1) with
    | some g2 => some (1 + g2 + 2)
    | none => none
  else if litAt s q [']', ']'] then some 2
  else none

/-- Match of the wiki pattern anchored at index i: optional bang, double
opening bracket, lazy target group, wiki tail. Returns the total match
length and the captured target characters. -/
def matchWikiAt (s : List Char) (i : Nat) : Option (Nat × List Char) :=
  match (if litAt s i ['!', '[', '['] then some 3
         else if litAt s i ['[', '['] then some 2
         else none : Option Nat) with
  | none => none
  | some pl =>
    match findFirst (fun g1 => noNewline s (i + pl) g1 &&
        (matchTailWiki s (i + pl + g1)).isSome) (s.length + 1) with
    | none => none
    | some g1 =>
      match matchTailWiki s (i + pl + g1) with
      | some t => some (pl + g1 + t, (s.drop (i + pl)).take g1)
      | none => none

/-- Match of the markdown pattern anchored at index i: optional bang,
opening bracket, lazy label up to a bracket-paren pair for which a
closing paren is reachable, then the lazy target group up to the closing
paren. Returns the total length and the captured target characters. -/
def matchMdAt (s : List Char) (i : Nat) : Option (Nat × List Char) :=
  match (if litAt s i ['!', '['] then some 2
         else if litAt s i ['['] then some 1
         else none : Option Nat) with
  | none => none
  | some pl =>
    match findFirst (fun g1 => noNewline s (i + pl) g1 &&
        litAt s (i + pl + g1) [']', '('] &&
        (findFirst (fun g2 => noNewline s (i + pl + g1 + 2) g2 &&
          litAt s (i + pl + g1 + 2 + g2) [')']) (s.length + 1)).isSome)
        (s.length + 1) with
    | none => none
    | some g1 =>
      match findFirst (fun g2 => noNewline s (i + pl + g1 + 2) g2 &&
          litAt s (i + pl + g1 + 2 + g2) [')']) (s.length + 1) with
      | some g2 => some (pl + g1 + 2 + g2 + 1, (s.drop (i + pl + g1 + 2)).take g2)
      | none => none

/-- One match produced by the exec loop: start index, matched length and
first capture group. -/
structure RMatch where
  index : Nat
  len : Nat
  group : List Char
deriving DecidableEq

/-- Leftmost match at or after the given start index. -/
def findMatchFrom (matchAt : List Char → Nat → Option (Nat × List Char))
    (s : List Char) (start : Nat) : Option RMatch :=
  match findFirst (fun d => (matchAt s (start + d)).isSome)
      (s.length + 1 - start) with
  | none => none
  | some d =>
    match matchAt s (start + d) with
    | some r => some ⟨start + d, r.1, r.2⟩
    | none => none

/-- The exec loop with the global flag: repeatedly take the leftmost match
and resume at its end. The fuel bounds the iteration count; every match
is at least four characters long, so length plus one iterations always
suffice. -/
def execAll (matchAt : List Char → Nat → Option (Nat × List Char))
    (s : List Char) : Nat → Nat → List RMatch
  | 0, _ => []
  | fuel + 1, start =>
    match findMatchFrom matchAt s start with
    | none => []
    | some m => m :: execAll matchAt s fuel (m.index + m.len)

/-- All wiki-pattern matches of a line, in exec order. -/
def wikiMatches (s : List Char) : List RMatch :=
  execAll matchWikiAt s (s.length + 1) 0

/-- All markdown-pattern matches of a line, in exec order. -/
def mdMatches (s : List Char) : List RMatch :=
  execAll matchMdAt s (s.length + 1) 0

/-- Hexadecimal digit value, as used by percent-escape parsing. -/
def hexDigit (c : Char) : Option Nat :=
  if '0' ≤ c ∧ c ≤ '9' then some (c.toNat - '0'.toNat)
  else if 'a' ≤ c ∧ c ≤ 'f' then some (c.toNat - 'a'.toNat + 10)
  else if 'A' ≤ c ∧ c ≤ 'F' then some (c.toNat - 'A'.toNat + 10)
  else none

/-- Percent-escape tokenizer of the decodeURIComponent model: a percent
sign must be followed by two hex digits yielding a byte, any other
character passes through; a malformed escape is the thrown URIError. -/
def tokenizeEscapes : List Char → Option (List (Sum Char Nat))
  | [] => some []
  | '%' :: h1 :: h2 :: rest =>
    match hexDigit h1, hexDigit h2 with
    | some a, some b =>
      (tokenizeEscapes rest).map (fun ts => Sum.inr (16 * a + b) :: ts)
    | _, _ => none
  | '%' :: _ => none
  | c :: rest => (tokenizeEscapes rest).map (fun ts => Sum.inl c :: ts)

/-- Continuation-byte test for strict UTF-8. -/
def isCont (b : Nat) : Bool := 128 ≤ b && b ≤ 191

/-- Strict UTF-8 decoding of the escape bytes, leaving pass-through
characters alone; any ill-formed byte sequence is the thrown URIError.
Astral code points become one character here where JS yields a surrogate
pair. -/
def utf8Decode : List (Sum Char Nat) → Option (List Char)
  | [] => some []
  | .inl c :: rest => (utf8Decode rest).map (fun cs => c :: cs)
  | .inr b :: rest =>
    if b < 128 then (utf8Decode rest).map (fun cs => Char.ofNat b :: cs)
    else if 194 ≤ b && b ≤ 223 then
      match rest with
      | .inr b2 :: rest2 =>
        if isCont b2 then
          (utf8Decode rest2).map (fun cs =>
            Char.ofNat ((b - 192) * 64 + (b2 - 128)) :: cs)
        else none
      | _ => none
    else if 224 ≤ b && b ≤ 239 then
      match rest with
      | .inr b2 :: .inr b3 :: rest3 =>
        if (if b == 224 then decide (160 ≤ b2 && b2 ≤ 191 : Bool)
            else if b == 237 then decide (128 ≤ b2 && b2 ≤ 159 : Bool)
            else isCont b2) && isCont b3 then
          (utf8Decode rest3).map (fun cs =>
            Char.ofNat ((b - 224) * 4096 + (b2 - 128) * 64 + (b3 - 128)) :: cs)
        else none
      | _ => none
    else if 240 ≤ b && b ≤ 244 then
      match rest with
      | .inr b2 :: .inr b3 :: .inr b4 :: rest4 =>
        if (if b == 240 then decide (144 ≤ b2 && b2 ≤ 191 : Bool)
            else if b == 244 then decide (128 ≤ b2 && b2 ≤ 143 : Bool)
            else isCont b2) && isCont b3 && isCont b4 then
          (utf8Decode rest4).map (fun cs =>
            Char.ofNat ((b - 240) * 262144 + (b2 - 128) * 4096 +
              (b3 - 128) * 64 + (b4 - 128)) :: cs)
        else none
      | _ => none
    else none

/-- Model of the JS decodeURIComponent builtin: none models the thrown
URIError, some the decoded string. -/
def decodeURIComponent (s : String) : Option String :=
  match tokenizeEscapes s.data with
  | none => none
  | some ts =>
    match utf8Decode ts with
    | none => none
    | some cs => some (String.mk cs)

/-- Cursor containment test of the source: inclusive on both ends. -/
def spanContains (m : RMatch) (ch : Nat) : Bool :=
  m.index ≤ ch && ch ≤ m.index + m.len

/-- Embedding of getLinkUnderCursor (main.js lines 203-218): all wiki
matches are tried first, then all markdown matches, each against the
inclusive span test; the first hit is returned, with the markdown target
percent-decoded — a decode error is the thrown URIError, modelled as the
error case. -/
def getLinkUnderCursor (lineText : String) (cursor : Pos) :
    Except Unit (Option AttachmentRef) :=
  match (wikiMatches lineText.data).find? (fun m => spanContains m cursor.ch) with
  | some m => .ok (some { linkText := String.mk m.group,
                          startPos := { line := cursor.line, ch := m.index },
                          stopPos := { line := cursor.line, ch := m.index + m.len } })
  | none =>
    match (mdMatches lineText.data).find? (fun m => spanContains m cursor.ch) with
    | some m =>
      match decodeURIComponent (String.mk m.group) with
      | some decoded => .ok (some { linkText := decoded,
                                    startPos := { line := cursor.line, ch := m.index },
                                    stopPos := { line := cursor.line,
                                                 ch := m.index + m.len } })
      | none => .error ()
    | none => .ok none

theorem findMatchFrom_index_ge (matchAt : List Char → Nat → Option (Nat × List Char))
    (s : List Char) (start : Nat) (m : RMatch)
    (h : findMatchFrom matchAt s start = some m) : start ≤ m.index := by
  unfold findMatchFrom at h
  split at h
  · exact absurd h (by simp)
  · split at h
    · simp only [Option.some.injEq] at h
      rw [← h]
      exact Nat.le_add_right _ _
    · exact absurd h (by simp)

theorem execAll_index_ge (matchAt : List Char → Nat → Option (Nat × List Char))
    (s : List Char) :
    ∀ fuel start, ∀ m ∈ execAll matchAt s fuel start, start ≤ m.index := by
  intro fuel
  induction fuel with
  | zero => intro start m hm; simp [execAll] at hm
  | succ fuel ih =>
    intro start m hm
    rw [execAll] at hm
    rcases hf : findMatchFrom matchAt s start with _ | m0
    · rw [hf] at hm; simp at hm
    · rw [hf] at hm
      rcases List.mem_cons.mp hm with h | h
      · subst h; exact findMatchFrom_index_ge _ _ _ _ hf
      · have h1 := findMatchFrom_index_ge _ _ _ _ hf
        have h2 := ih (m0.index + m0.len) m h
        omega

theorem execAll_pairwise (matchAt : List Char → Nat → Option (Nat × List Char))
    (s : List Char) :
    ∀ fuel start, (execAll matchAt s fuel start).Pairwise
      (fun a b => a.index + a.len ≤ b.index) := by
  intro fuel
  induction fuel with
  | zero => intro start; simp [execAll]
  | succ fuel ih =>
    intro start
    rw [execAll]
    rcases hf : findMatchFrom matchAt s start with _ | m0
    · simp
    · rw [List.pairwise_cons]
      exact ⟨fun b hb => execAll_index_ge matchAt s fuel (m0.index + m0.len) b hb,
        ih _⟩

theorem find?_spanContains_of_strict (ch : Nat) :
    ∀ (l : List RMatch), l.Pairwise (fun a b => a.index + a.len ≤ b.index) →
    ∀ m ∈ l, m.index < ch → ch < m.index + m.len →
    l.find? (fun mm => spanContains mm ch) = some m := by
  intro l
  induction l with
  | nil => intro _ m hm; simp at hm
  | cons a rest ih =>
    intro hpw m hm h1 h2
    rw [List.pairwise_cons] at hpw
    rcases List.mem_cons.mp hm with h | h
    · subst h
      have hc : spanContains m ch = true := by
        simp only [spanContains, Bool.and_eq_true, decide_eq_true_eq]
        omega
      simp [List.find?, hc]
    · have hsep := hpw.1 m h
      have hfalse : spanContains a ch = false := by
        simp only [spanContains, Bool.and_eq_false_iff, decide_eq_false_iff_not]
        omega
      simp only [List.find?, hfalse]
      exact ih hpw.2 m h h1 h2

theorem find?_first_containing (p : RMatch → Bool) :
    ∀ (pre : List RMatch) (m : RMatch) (post : List RMatch),
    (∀ mm ∈ pre, p mm = false) → p m = true →
    (pre ++ m :: post).find? p = some m := by
  intro pre
  induction pre with
  | nil => intro m post _ hm; simp [List.find?, hm]
  | cons a pre ih =>
    intro m post hpre hm
    have ha := hpre a (by simp)
    simp only [List.cons_append, List.find?, ha]
    exact ih m post (fun mm h => hpre mm (by simp [h])) hm

/-- C7: the link locator tries every wiki match before any markdown match
and returns the first match whose inclusive span contains the cursor,
percent-decoding markdown targets; it returns none when no match spans
the cursor; and for a cursor strictly inside a match of the prevailing
link form the returned span is exactly that match range. -/
theorem c7_link_locator (lineText : String) (cursor : Pos) :
    ((∀ m ∈ wikiMatches lineText.data, spanContains m cursor.ch = false) →
     (∀ m ∈ mdMatches lineText.data, spanContains m cursor.ch = false) →
     getLinkUnderCursor lineText cursor = .ok none) ∧
    (∀ pre m post, wikiMatches lineText.data = pre ++ m :: post →
     (∀ mm ∈ pre, spanContains mm cursor.ch = false) →
     spanContains m cursor.ch = true →
     getLinkUnderCursor lineText cursor = .ok (some
       { linkText := String.mk m.group,
         startPos := { line := cursor.line, ch := m.index },
         stopPos := { line := cursor.line, ch := m.index + m.len } })) ∧
    (∀ m ∈ wikiMatches lineText.data, m.index < cursor.ch →
     cursor.ch < m.index + m.len →
     getLinkUnderCursor lineText cursor = .ok (some
       { linkText := String.mk m.group,
         startPos := { line := cursor.line, ch := m.index },
         stopPos := { line := cursor.line, ch := m.index + m.len } })) ∧
    (∀ pre m post, mdMatches lineText.data = pre ++ m :: post →
     (∀ mm ∈ wikiMatches lineText.data, spanContains mm cursor.ch = false) →
     (∀ mm ∈ pre, spanContains mm cursor.ch = false) →
     spanContains m cursor.ch = true →
     ∀ decoded, decodeURIComponent (String.mk m.group) = some decoded →
     getLinkUnderCursor lineText cursor = .ok (some
       { linkText := decoded,
         startPos := { line := cursor.line, ch := m.index },
         stopPos := { line := cursor.line, ch := m.index + m.len } })) ∧
    (∀ m ∈ mdMatches lineText.data,
     (∀ mm ∈ wikiMatches lineText.data, spanContains mm cursor.ch = false) →
     m.index < cursor.ch → cursor.ch < m.index + m.len →
     ∀ decoded, decodeURIComponent (String.mk m.group) = some decoded →
     getLinkUnderCursor lineText cursor = .ok (some
       { linkText := decoded,
         startPos := { line := cursor.line, ch := m.index },
         stopPos := { line := cursor.line, ch := m.index + m.len } })) := by
  refine ⟨?_, ?_, ?_, ?_, ?_⟩
  · intro hw hm
    have hw' : (wikiMatches lineText.data).find?
        (fun m => spanContains m cursor.ch) = none :=
      List.find?_eq_none.mpr (fun x hx => by simp [hw x hx])
    have hm' : (mdMatches lineText.data).find?
        (fun m => spanContains m cursor.ch) = none :=
      List.find?_eq_none.mpr (fun x hx => by simp [hm x hx])
    unfold getLinkUnderCursor
    rw [hw', hm']
  · intro pre m post hdec hpre hc
    have hw : (wikiMatches lineText.data).find?
        (fun mm => spanContains mm cursor.ch) = some m := by
      rw [hdec]
      exact find?_first_containing _ pre m post hpre hc
    unfold getLinkUnderCursor
    rw [hw]
  · intro m hm h1 h2
    have hw : (wikiMatches lineText.data).find?
        (fun mm => spanContains mm cursor.ch) = some m :=
      find?_spanContains_of_strict cursor.ch _
        (execAll_pairwise matchWikiAt lineText.data _ _) m hm h1 h2
    unfold getLinkUnderCursor
    rw [hw]
  · intro pre m post hdec hwiki hpre hc decoded hdecode
    have hw : (wikiMatches lineText.data).find?
        (fun mm => spanContains mm cursor.ch) = none :=
      List.find?_eq_none.mpr (fun x hx => by simp [hwiki x hx])
    have hmd : (mdMatches lineText.data).find?
        (fun mm => spanContains mm cursor.ch) = some m := by
      rw [hdec]
      exact find?_first_containing _ pre m post hpre hc
    unfold getLinkUnderCursor
    rw [hw, hmd]
    simp only []
    rw [hdecode]
  · intro m hm hwiki h1 h2 decoded hdecode
    have hw : (wikiMatches lineText.data).find?
        (fun mm => spanContains mm cursor.ch) = none :=
      List.find?_eq_none.mpr (fun x hx => by simp [hwiki x hx])
    have hmd : (mdMatches lineText.data).find?
        (fun mm => spanContains mm cursor.ch) = some m :=
      find?_spanContains_of_strict cursor.ch _
        (execAll_pairwise matchMdAt lineText.data _ _) m hm h1 h2
    unfold getLinkUnderCursor
    rw [hw, hmd]
    simp only []
    rw [hdecode]

/-- Witness for C7 on a line holding one wiki link and one markdown link,
cursor strictly inside the wiki link. -/
theorem c7_link_locator_witness :
    getLinkUnderCursor "ab [[target]] cd [x](y)" { line := 0, ch := 5 } =
      .ok (some { linkText := "target", startPos := { line := 0, ch := 3 },
                  stopPos := { line := 0, ch := 13 } }) := by
  have h := (c7_link_locator "ab [[target]] cd [x](y)"
      { line := 0, ch := 5 }).2.2.1 ⟨3, 10, "target".data⟩ (by decide)
      (by decide) (by decide)
  exact h

/-- C9: getLinkUnderCursor is not total — on a markdown link whose target
is a lone percent sign, with the cursor inside its span and no wiki link
spanning the cursor, percent-decoding throws instead of producing an
AttachmentRef or none. -/
theorem c9_percent_decode_not_total :
    getLinkUnderCursor "[a](%)" { line := 0, ch := 2 } = .error () := rfl

end SmartDelete
